import Mathlib

/-!
Shallow embedding of the DEPO inventory app (src/depo_app_v5.py): the
movement data model, the net-stock aggregation `hesapla_stok`, the
movement-recording submit handler, and the report filter / summary totals.
Quantities are modelled as `Rat` (the source uses floats via
`pd.to_numeric`), effective dates as `Option Int` day numbers (`none` is an
unparseable date, pandas `NaT`), and a malformed quantity cell as
`miktar = none` (pandas `to_numeric(errors="coerce")` yielding `NaN`,
then `fillna(0.0)`).
-/

namespace Depo

/-- One row of the `hareketler` sheet (`MOVE_COLUMNS` in the source):
effective date `tarih`, recording timestamp `kayit_zamani`, movement kind
`islem_turu` (a plain string, `"Giriş"`/`"Çıkış"` when written by the form),
product code and name, quantity `miktar`, unit `birim`, note `aciklama`. -/
structure Movement where
  tarih : Option Int
  kayit_zamani : String
  islem_turu : String
  urun_kodu : String
  urun_adi : String
  miktar : Option Rat
  birim : String
  aciklama : String
deriving DecidableEq, Repr

/-- The grouping key of the aggregation: `(urun_kodu, urun_adi, birim)`. -/
abbrev Key := String × String × String

def keyOf (m : Movement) : Key := (m.urun_kodu, m.urun_adi, m.birim)

/-- Character lowering as Python `str.lower()` behaves on the characters
this app actually meets: ASCII upper case plus the Turkish letters
Ç, Ş, Ğ, Ü, Ö. (Python lowers `İ` to `i` followed by a combining dot, so a
kind string containing `İ` never matches the prefix `"giriş"`; leaving `İ`
unchanged preserves that observable behaviour.) -/
def lowerChar (c : Char) : Char :=
  if c = 'Ç' then 'ç'
  else if c = 'Ş' then 'ş'
  else if c = 'Ğ' then 'ğ'
  else if c = 'Ü' then 'ü'
  else if c = 'Ö' then 'ö'
  else c.toLower

def lowerTR (s : String) : String := ⟨s.data.map lowerChar⟩

/-- Sign assigned by `hesapla_stok` line 138: `+1` when the lowered kind
string starts with `"giriş"`, `-1` otherwise (`.str.startswith("giriş")`
then `{1:1, 0:-1}`). -/
def signOf (s : String) : Int :=
  if "giriş".data.isPrefixOf (lowerTR s).data then 1 else -1

/-- Quantity after `pd.to_numeric(..., errors="coerce").fillna(0.0)`:
a malformed cell (`none`) becomes `0`. -/
def qtyOf (m : Movement) : Rat := m.miktar.getD 0

def signedQty (m : Movement) : Rat := (signOf m.islem_turu : Rat) * qtyOf m

/-- Strict lexicographic comparison of lists under a strict comparison of
elements, as Python compares strings and tuples: the empty list is below
any non-empty list, otherwise compare heads and recurse on equal heads. -/
def lexLtB (lt : α → α → Bool) : List α → List α → Bool
  | _, [] => false
  | [], _ :: _ => true
  | a :: as, b :: bs => if lt a b then true else if lt b a then false else lexLtB lt as bs

/-- Codepoint comparison of characters (Python compares strings by
codepoint). -/
def charLtB (a b : Char) : Bool := decide (a < b)

/-- A grouping key as the list of its three components' character lists,
so that Python's tuple-of-strings comparison is one nested `lexLtB`. -/
def keyTriple (k : Key) : List (List Char) := [k.1.data, k.2.1.data, k.2.2.data]

/-- Strict order on grouping keys: Python `<` on the
`(urun_kodu, urun_adi, birim)` tuples, which pandas
`groupby(..., sort=True)` sorts ascending. -/
def keyLtB (a b : Key) : Bool := lexLtB (lexLtB charLtB) (keyTriple a) (keyTriple b)

/-- Non-strict order on grouping keys, `a ≤ b ↔ ¬ b < a`. -/
def keyLE (a b : Key) : Prop := keyLtB b a = false

instance : DecidableRel keyLE := fun a b => by unfold keyLE; infer_instance

theorem lexLtB_irrefl (lt : α → α → Bool) (hirr : ∀ a, lt a a = false) :
    ∀ l, lexLtB lt l l = false
  | [] => rfl
  | a :: as => by simp [lexLtB, hirr a, lexLtB_irrefl lt hirr as]

theorem lexLtB_asymm (lt : α → α → Bool) (hasym : ∀ a b, lt a b = true → lt b a = false) :
    ∀ l₁ l₂, lexLtB lt l₁ l₂ = true → lexLtB lt l₂ l₁ = false
  | [], [] => by simp [lexLtB]
  | _ :: _, [] => by simp [lexLtB]
  | [], _ :: _ => fun _ => rfl
  | a :: as, b :: bs => by
    intro h
    cases hab : lt a b with
    | true => simp [lexLtB, hab, hasym a b hab]
    | false =>
      cases hba : lt b a with
      | true => simp [lexLtB, hab, hba] at h
      | false =>
        simp only [lexLtB, hab, hba, Bool.false_eq_true, if_false] at h ⊢
        exact lexLtB_asymm lt hasym as bs h

theorem lexLtB_conn (lt : α → α → Bool)
    (hconn : ∀ a b, lt a b = false → lt b a = false → a = b) :
    ∀ l₁ l₂, lexLtB lt l₁ l₂ = false → lexLtB lt l₂ l₁ = false → l₁ = l₂
  | [], [] => fun _ _ => rfl
  | [], _ :: _ => by simp [lexLtB]
  | _ :: _, [] => by simp [lexLtB]
  | a :: as, b :: bs => by
    intro h₁ h₂
    cases hab : lt a b with
    | true => simp [lexLtB, hab] at h₁
    | false =>
      cases hba : lt b a with
      | true => simp [lexLtB, hba] at h₂
      | false =>
        simp only [lexLtB, hab, hba, Bool.false_eq_true, if_false] at h₁ h₂
        rw [hconn a b hab hba, lexLtB_conn lt hconn as bs h₁ h₂]

theorem lexLtB_trans (lt : α → α → Bool)
    (htr : ∀ a b c, lt a b = true → lt b c = true → lt a c = true)
    (hconn : ∀ a b, lt a b = false → lt b a = false → a = b) :
    ∀ l₁ l₂ l₃, lexLtB lt l₁ l₂ = true → lexLtB lt l₂ l₃ = true → lexLtB lt l₁ l₃ = true
  | _, _ :: _, [] => by simp [lexLtB]
  | _, [], [] => by simp [lexLtB]
  | [], _, _ :: _ => by simp [lexLtB]
  | _ :: _, [], _ :: _ => by simp [lexLtB]
  | a :: as, b :: bs, c :: cs => by
    intro h₁ h₂
    cases hab : lt a b with
    | true =>
      cases hbc : lt b c with
      | true => simp [lexLtB, htr a b c hab hbc]
      | false =>
        cases hcb : lt c b with
        | true => simp [lexLtB, hbc, hcb] at h₂
        | false =>
          have he := hconn b c hbc hcb
          subst he
          simp [lexLtB, hab]
    | false =>
      cases hba : lt b a with
      | true => simp [lexLtB, hab, hba] at h₁
      | false =>
        have he := hconn a b hab hba
        subst he
        simp only [lexLtB, hab, Bool.false_eq_true, if_false] at h₁ h₂ ⊢
        cases hac : lt a c with
        | true => simp [hac]
        | false =>
          cases hca : lt c a with
          | true => simp [hac, hca] at h₂
          | false =>
            simp only [hac, hca, Bool.false_eq_true, if_false] at h₂ ⊢
            exact lexLtB_trans lt htr hconn as bs cs h₁ h₂

theorem charLtB_irrefl (a : Char) : charLtB a a = false := by simp [charLtB]

theorem charLtB_asymm (a b : Char) (h : charLtB a b = true) : charLtB b a = false := by
  simp only [charLtB, decide_eq_true_eq] at h
  simp [charLtB, le_of_lt h]

theorem charLtB_trans (a b c : Char) (h₁ : charLtB a b = true) (h₂ : charLtB b c = true) :
    charLtB a c = true := by
  simp only [charLtB, decide_eq_true_eq] at h₁ h₂ ⊢
  exact lt_trans h₁ h₂

theorem charLtB_conn (a b : Char) (h₁ : charLtB a b = false) (h₂ : charLtB b a = false) :
    a = b := by
  simp only [charLtB, decide_eq_false_iff_not, not_lt] at h₁ h₂
  exact le_antisymm h₂ h₁

/-- The string comparison underlying `keyLtB`. -/
def strLtB (a b : String) : Bool := lexLtB charLtB a.data b.data

theorem strLtB_conn (a b : String) (h₁ : strLtB a b = false) (h₂ : strLtB b a = false) :
    a = b := by
  have := lexLtB_conn charLtB charLtB_conn a.data b.data h₁ h₂
  exact congrArg String.mk this

theorem keyLtB_irrefl (a : Key) : keyLtB a a = false :=
  lexLtB_irrefl _ (lexLtB_irrefl _ charLtB_irrefl) _

theorem keyLtB_asymm (a b : Key) (h : keyLtB a b = true) : keyLtB b a = false :=
  lexLtB_asymm _ (lexLtB_asymm _ charLtB_asymm) _ _ h

theorem keyLtB_trans (a b c : Key) (h₁ : keyLtB a b = true) (h₂ : keyLtB b c = true) :
    keyLtB a c = true :=
  lexLtB_trans _ (lexLtB_trans _ charLtB_trans charLtB_conn)
    (lexLtB_conn _ charLtB_conn) _ _ _ h₁ h₂

theorem keyLtB_conn (a b : Key) (h₁ : keyLtB a b = false) (h₂ : keyLtB b a = false) :
    a = b := by
  have h := lexLtB_conn _ (lexLtB_conn _ charLtB_conn) _ _ h₁ h₂
  obtain ⟨a₁, a₂, a₃⟩ := a
  obtain ⟨b₁, b₂, b₃⟩ := b
  simp only [keyTriple, List.cons.injEq, and_true] at h
  obtain ⟨e₁, e₂, e₃⟩ := h
  rw [show a₁ = b₁ from congrArg String.mk e₁, show a₂ = b₂ from congrArg String.mk e₂,
    show a₃ = b₃ from congrArg String.mk e₃]

instance : IsTotal Key keyLE where
  total a b := by
    unfold keyLE
    cases h : keyLtB b a with
    | false => exact Or.inl rfl
    | true => exact Or.inr (keyLtB_asymm b a h)

instance : IsTrans Key keyLE where
  trans a b c hab hbc := by
    unfold keyLE at hab hbc ⊢
    cases h : keyLtB c a with
    | false => rfl
    | true =>
      exfalso
      cases g : keyLtB a b with
      | false =>
        have := keyLtB_conn a b g hab
        subst this
        rw [hbc] at h
        exact Bool.false_ne_true h
      | true =>
        cases g₂ : keyLtB b c with
        | false =>
          have := keyLtB_conn b c g₂ hbc
          subst this
          rw [hab] at h
          exact Bool.false_ne_true h
        | true =>
          have := keyLtB_asymm a c (keyLtB_trans a b c g g₂)
          rw [this] at h
          exact Bool.false_ne_true h

instance : IsAntisymm Key keyLE where
  antisymm a b hab hba := keyLtB_conn a b hba hab

/-- The distinct grouping keys of a movement list, in the sorted order
pandas `groupby` emits them. -/
def stokKeys (moves : List Movement) : List Key :=
  List.insertionSort keyLE ((moves.map keyOf).dedup)

/-- Net signed quantity of one group: the source's
`t.groupby([...])["net"].sum()` restricted to one key. -/
def groupSum (moves : List Movement) (k : Key) : Rat :=
  ((moves.filter fun m => keyOf m = k).map signedQty).sum

/-- One row of the stock table returned by `hesapla_stok`. -/
structure StockRow where
  urun_kodu : String
  urun_adi : String
  birim : String
  stok_miktar : Rat
deriving DecidableEq, Repr

def mkRow (moves : List Movement) (k : Key) : StockRow :=
  ⟨k.1, k.2.1, k.2.2, groupSum moves k⟩

/-- The `(urun_kodu, urun_adi, birim)` key of a stock row. -/
def rowKey (r : StockRow) : Key := (r.urun_kodu, r.urun_adi, r.birim)

/-- `hesapla_stok` (source lines 134-141): empty input yields the empty
table; otherwise one row per distinct `(urun_kodu, urun_adi, birim)` key,
in sorted key order, carrying the signed quantity sum of its group. -/
def hesapla_stok (moves : List Movement) : List StockRow :=
  if moves.isEmpty then [] else (stokKeys moves).map (mkRow moves)

/-- `dict(zip(stok["urun_kodu"], stok["stok_miktar"]))` followed by
`.get(code, 0.0)`: the value of the last stock row whose `urun_kodu`
matches, defaulting to `0`. -/
def mevcutLookup (stok : List StockRow) (code : String) : Option Rat :=
  ((stok.filter fun r => r.urun_kodu = code).getLast?).map StockRow.stok_miktar

/-- Net stock of a product code as the submit handler computes it
(source lines 207-210). -/
def netOf (moves : List Movement) (code : String) : Rat :=
  (mevcutLookup (hesapla_stok moves) code).getD 0

/-- Failure outcomes of one submission of the movement form.
`InsufficientStock available` embeds the
`st.error(f"Yetersiz stok. Mevcut: {mevcut}"); st.stop()` path (lines
211-213); `InvalidQuantity` embeds the `min_value=0.0` constraint of the
quantity widget (line 198), which makes a negative quantity unsubmittable. -/
inductive RecorderError where
  | InvalidQuantity : RecorderError
  | InsufficientStock : Rat → RecorderError
deriving DecidableEq, Repr

/-- The data a submission of the movement form carries: the selected kind
(`"Giriş"` or `"Çıkış"` from the selectbox), product code and name, the
quantity, unit, note and the chosen effective date. -/
structure MoveRequest where
  islem : String
  urun_kodu : String
  urun_adi : String
  miktar : Rat
  birim : String
  aciklama : String
  tarih : Int
deriving DecidableEq, Repr

/-- The new movement row the submit handler builds (the `yeni` dict,
lines 215-224), stamped with the caller-supplied `recorded_at` string. -/
def mkMovement (req : MoveRequest) (nowStr : String) : Movement :=
  { tarih := some req.tarih, kayit_zamani := nowStr, islem_turu := req.islem,
    urun_kodu := req.urun_kodu, urun_adi := req.urun_adi,
    miktar := some req.miktar, birim := req.birim, aciklama := req.aciklama }

/-- The submit handler (lines 206-226): reject a negative quantity (the
widget gate), then for kind `"Çıkış"` compare the requested quantity with
the net stock of the product over the existing ledger and reject with the
available amount when the request exceeds it; otherwise append the new
movement. Persistence is the caller's concern and not modelled. -/
def record (ledger : List Movement) (req : MoveRequest) (nowStr : String) :
    Except RecorderError (List Movement) :=
  if req.miktar < 0 then .error .InvalidQuantity
  else if req.islem = "Çıkış" ∧ req.miktar > netOf ledger req.urun_kodu then
    .error (.InsufficientStock (netOf ledger req.urun_kodu))
  else .ok (ledger ++ [mkMovement req nowStr])

/-- Date part of the report mask (line 275): `tarih_only >= start` and
`<= end`, where an unparseable date (`none`, pandas `NaT`) compares false
on both sides and is therefore excluded. -/
def dateInRange (s e : Int) (m : Movement) : Bool :=
  match m.tarih with
  | none => false
  | some d => decide (s ≤ d) && decide (d ≤ e)

/-- The full report mask (lines 275-277): the date window, and the product
restriction guarded by Python truthiness (`if selected_code:`), so both a
missing code and the empty-string code leave the mask unrestricted. -/
def raporMask (s e : Int) (pc : Option String) (m : Movement) : Bool :=
  dateInRange s e m &&
    match pc with
    | none => true
    | some c => if c = "" then true else decide (m.urun_kodu = c)

/-- The filtered report (line 278). -/
def raporFilter (L : List Movement) (s e : Int) (pc : Option String) : List Movement :=
  L.filter (raporMask s e pc)

/-- Report filter following the specification's words (4.4): inclusive
bounds on `effective_date`, and a restriction to `product_code` whenever
one is given. Kept separate from `raporFilter` (the source's mask) so the
two can be compared. -/
def filterSpec (L : List Movement) (s e : Int) (pc : Option String) : List Movement :=
  L.filter fun m =>
    dateInRange s e m &&
      match pc with
      | none => true
      | some c => decide (m.urun_kodu = c)

/-- `Toplam Giriş` (line 285): sum of the quantities of the rows whose
kind equals `"Giriş"` exactly, malformed quantities coerced to `0`. -/
def girisTop (L : List Movement) : Rat :=
  ((L.filter fun m => m.islem_turu = "Giriş").map qtyOf).sum

/-- `Toplam Çıkış` (line 286): sum of the quantities of the rows whose
kind equals `"Çıkış"` exactly. -/
def cikisTop (L : List Movement) : Rat :=
  ((L.filter fun m => m.islem_turu = "Çıkış").map qtyOf).sum

/-- The three summary metrics of the report page (lines 287-290):
total in, total out, and their difference. -/
def raporTotals (L : List Movement) : Rat × Rat × Rat :=
  (girisTop L, cikisTop L, girisTop L - cikisTop L)

theorem sum_filter_map (p : α → Bool) (f : α → Rat) :
    ∀ l : List α, ((l.filter p).map f).sum = (l.map fun a => if p a then f a else 0).sum
  | [] => rfl
  | a :: l => by
    cases h : p a <;>
      simp [List.filter_cons, h, sum_filter_map p f l]

theorem sum_filter_mid (p : α → Bool) (f : α → Rat) (l₁ l₂ : List α) (x : α) :
    (((l₁ ++ x :: l₂).filter p).map f).sum
      = (((l₁ ++ l₂).filter p).map f).sum + (if p x then f x else 0) := by
  cases h : p x
  · simp [List.filter_append, List.filter_cons, h]
  · simp [List.filter_append, List.filter_cons, h]
    ring

/-- C8: on the empty ledger the aggregation returns the empty table, and
the report filter returns the empty sequence with summary totals
`(0, 0, 0)` for every date range and product restriction. -/
theorem empty_ledger_behaviour :
    hesapla_stok [] = [] ∧
    ∀ s e pc, raporFilter [] s e pc = [] ∧ raporTotals (raporFilter [] s e pc) = (0, 0, 0) := by
  refine ⟨rfl, fun s e pc => ⟨rfl, ?_⟩⟩
  simp [raporFilter, raporTotals, girisTop, cikisTop]

/-- C7: the summary totals of any (filtered) movement list satisfy
`total_in = Σ quantity over kind = Giriş`,
`total_out = Σ quantity over kind = Çıkış`, and `net = total_in - total_out`. -/
theorem rapor_totals_correct (L : List Movement) :
    girisTop L = (L.map fun m => if m.islem_turu = "Giriş" then qtyOf m else 0).sum ∧
    cikisTop L = (L.map fun m => if m.islem_turu = "Çıkış" then qtyOf m else 0).sum ∧
    (raporTotals L).2.2 = (raporTotals L).1 - (raporTotals L).2.1 := by
  refine ⟨?_, ?_, rfl⟩
  · simpa using sum_filter_map (fun m => decide (m.islem_turu = "Giriş")) qtyOf L
  · simpa using sum_filter_map (fun m => decide (m.islem_turu = "Çıkış")) qtyOf L

/-- C1: a withdrawal request strictly exceeding the product's net stock,
as the aggregator computes it over the existing ledger, is rejected with
`InsufficientStock` carrying that net stock, and nothing is appended. -/
theorem record_insufficient (L : List Movement) (req : MoveRequest) (nowStr : String)
    (hk : req.islem = "Çıkış") (h0 : 0 ≤ req.miktar)
    (hgt : req.miktar > netOf L req.urun_kodu) :
    record L req nowStr = .error (.InsufficientStock (netOf L req.urun_kodu)) := by
  unfold record
  rw [if_neg (not_lt.mpr h0), if_pos ⟨hk, hgt⟩]

def reqP1Out5 : MoveRequest := ⟨"Çıkış", "P1", "N", 5, "Adet", "", 0⟩

/-- Witness for C1: withdrawing 5 of `P1` from the empty ledger is
rejected with the available stock 0. -/
theorem record_insufficient_witness :
    reqP1Out5.islem = "Çıkış" ∧ 0 ≤ reqP1Out5.miktar ∧
      reqP1Out5.miktar > netOf [] reqP1Out5.urun_kodu ∧
      record [] reqP1Out5 "2025-01-02 10:00"
        = .error (.InsufficientStock (netOf [] reqP1Out5.urun_kodu)) :=
  ⟨rfl, by with_unfolding_all decide, by with_unfolding_all decide,
    record_insufficient [] reqP1Out5 "2025-01-02 10:00" rfl
      (by with_unfolding_all decide) (by with_unfolding_all decide)⟩

/-- C9: the recorder rejects every negative quantity as `InvalidQuantity`
(the quantity widget's `min_value=0.0` gate, before any mutation) and a
quantity `≥ 0`, including the boundary `0`, is never rejected for its
quantity. -/
theorem record_quantity_gate (L : List Movement) (reqNeg req : MoveRequest) (nowStr : String)
    (hneg : reqNeg.miktar < 0) (hpos : 0 ≤ req.miktar) :
    record L reqNeg nowStr = .error .InvalidQuantity ∧
    record L req nowStr ≠ .error .InvalidQuantity := by
  constructor
  · unfold record
    rw [if_pos hneg]
  · unfold record
    rw [if_neg (not_lt.mpr hpos)]
    by_cases h : req.islem = "Çıkış" ∧ req.miktar > netOf L req.urun_kodu
    · rw [if_pos h]
      intro hcontra
      simp at hcontra
    · rw [if_neg h]
      intro hcontra
      simp at hcontra

def reqP1In0 : MoveRequest := ⟨"Giriş", "P1", "N", 0, "Adet", "", 0⟩

def reqP1InNeg : MoveRequest := ⟨"Giriş", "P1", "N", -1, "Adet", "", 0⟩

theorem hesapla_stok_eq (moves : List Movement) :
    hesapla_stok moves = (stokKeys moves).map (mkRow moves) := by
  unfold hesapla_stok
  cases moves with
  | nil => rfl
  | cons a l => rfl

theorem stokKeys_nodup (moves : List Movement) : (stokKeys moves).Nodup :=
  ((List.perm_insertionSort keyLE _).nodup_iff).mpr (List.nodup_dedup _)

theorem mem_stokKeys {moves : List Movement} {k : Key} :
    k ∈ stokKeys moves ↔ k ∈ moves.map keyOf := by
  rw [stokKeys, List.mem_insertionSort, List.mem_dedup]

theorem map_rowKey_hesapla (moves : List Movement) :
    (hesapla_stok moves).map rowKey = stokKeys moves := by
  rw [hesapla_stok_eq, List.map_map]
  have h : rowKey ∘ mkRow moves = id := funext fun k => rfl
  rw [h, List.map_id]

/-- C3: every stock row's value is the sum of `sign * quantity` over the
movements of its `(product_code, product_name, unit)` key, with sign `+1`
for `Giriş` and `-1` for `Çıkış`, and there is exactly one row per
distinct key observed in the movements. -/
theorem hesapla_stok_signed_group_sum (moves : List Movement) (r : StockRow) (k : Key)
    (hr : r ∈ hesapla_stok moves) :
    signOf "Giriş" = 1 ∧ signOf "Çıkış" = -1 ∧
    ((hesapla_stok moves).map rowKey).Nodup ∧
    (k ∈ (hesapla_stok moves).map rowKey ↔ k ∈ moves.map keyOf) ∧
    r.stok_miktar = (moves.map fun m =>
      if keyOf m = rowKey r then (signOf m.islem_turu : Rat) * qtyOf m else 0).sum := by
  refine ⟨by decide, by decide, ?_, ?_, ?_⟩
  · rw [map_rowKey_hesapla]
    exact stokKeys_nodup moves
  · rw [map_rowKey_hesapla]
    exact mem_stokKeys
  · rw [hesapla_stok_eq] at hr
    obtain ⟨k', hk', rfl⟩ := List.mem_map.mp hr
    have h := sum_filter_map (fun m => decide (keyOf m = k')) signedQty moves
    simpa [groupSum, signedQty, mkRow, rowKey] using h

def mvP1In10 : Movement := ⟨some 0, "2025-01-01 09:00", "Giriş", "P1", "N", some 10, "Adet", ""⟩

def mvP1Out4 : Movement := ⟨some 1, "2025-01-01 10:00", "Çıkış", "P1", "N", some 4, "Adet", ""⟩

def movesScn : List Movement := [mvP1In10, mvP1Out4]

def rowScn : StockRow := ⟨"P1", "N", "Adet", 6⟩

/-- Witness for C3: on the ledger `[{P1, In, 10}, {P1, Out, 4}]` the single
stock row carries `6 = 10 - 4`. -/
theorem hesapla_stok_signed_group_sum_witness :
    rowScn ∈ hesapla_stok movesScn ∧
      (signOf "Giriş" = 1 ∧ signOf "Çıkış" = -1 ∧
        ((hesapla_stok movesScn).map rowKey).Nodup ∧
        ((("P1", "N", "Adet") : Key) ∈ (hesapla_stok movesScn).map rowKey ↔
          (("P1", "N", "Adet") : Key) ∈ movesScn.map keyOf) ∧
        rowScn.stok_miktar = (movesScn.map fun m =>
          if keyOf m = rowKey rowScn then (signOf m.islem_turu : Rat) * qtyOf m else 0).sum) :=
  ⟨by with_unfolding_all decide,
    hesapla_stok_signed_group_sum movesScn rowScn ("P1", "N", "Adet")
      (by with_unfolding_all decide)⟩

theorem stokKeys_perm_eq {L L' : List Movement} (h : L.Perm L') :
    stokKeys L = stokKeys L' := by
  refine List.eq_of_perm_of_sorted ?_ (List.sorted_insertionSort keyLE _)
    (List.sorted_insertionSort keyLE _)
  exact (List.perm_insertionSort _ _).trans (((h.map keyOf).dedup).trans
    (List.perm_insertionSort _ _).symm)

theorem groupSum_perm {L L' : List Movement} (h : L.Perm L') (k : Key) :
    groupSum L k = groupSum L' k :=
  ((h.filter _).map _).sum_eq

/-- C5: the aggregation is independent of the insertion order of the
movements; permuting the ledger yields the identical stock table. -/
theorem hesapla_stok_perm_invariant (L L' : List Movement) (h : L.Perm L') :
    hesapla_stok L = hesapla_stok L' := by
  rw [hesapla_stok_eq, hesapla_stok_eq, stokKeys_perm_eq h]
  apply List.map_congr_left
  intro k _
  unfold mkRow
  rw [groupSum_perm h k]

/-- Witness for C5: swapping the two movements of the scenario ledger
leaves the stock table unchanged. -/
theorem hesapla_stok_perm_invariant_witness :
    [mvP1In10, mvP1Out4].Perm [mvP1Out4, mvP1In10] ∧
      hesapla_stok [mvP1In10, mvP1Out4] = hesapla_stok [mvP1Out4, mvP1In10] :=
  ⟨List.Perm.swap mvP1Out4 mvP1In10 [],
    hesapla_stok_perm_invariant _ _ (List.Perm.swap mvP1Out4 mvP1In10 [])⟩

theorem hesapla_stok_congr_mid (l₁ l₂ : List Movement) (a b : Movement)
    (hk : keyOf a = keyOf b) (hq : signedQty a = signedQty b) :
    hesapla_stok (l₁ ++ a :: l₂) = hesapla_stok (l₁ ++ b :: l₂) := by
  have hkeys : (l₁ ++ a :: l₂).map keyOf = (l₁ ++ b :: l₂).map keyOf := by
    simp [hk]
  have hstok : stokKeys (l₁ ++ a :: l₂) = stokKeys (l₁ ++ b :: l₂) := by
    unfold stokKeys
    rw [hkeys]
  rw [hesapla_stok_eq, hesapla_stok_eq, hstok]
  apply List.map_congr_left
  intro k _
  unfold mkRow
  have ha := sum_filter_mid (fun m => decide (keyOf m = k)) signedQty l₁ l₂ a
  have hb := sum_filter_mid (fun m => decide (keyOf m = k)) signedQty l₁ l₂ b
  unfold groupSum
  rw [ha, hb, hk, hq]

/-- C4: a movement whose quantity cell is malformed (`to_numeric` coerces
it to `NaN`, then `fillna` to `0`) contributes exactly as a quantity of
`0`: the aggregation result is unchanged when the malformed cell is
replaced by a literal `0`, and the whole sequence still aggregates. -/
theorem hesapla_stok_malformed_as_zero (l₁ l₂ : List Movement) (m : Movement)
    (h : m.miktar = none) :
    hesapla_stok (l₁ ++ m :: l₂) = hesapla_stok (l₁ ++ { m with miktar := some 0 } :: l₂) := by
  apply hesapla_stok_congr_mid
  · rfl
  · unfold signedQty qtyOf
    rw [h]
    rfl

def mvBadQty : Movement := ⟨some 0, "t", "Giriş", "P9", "X", none, "Adet", ""⟩

/-- Witness for C4: a one-row ledger with a malformed quantity aggregates
exactly as with quantity `0`. -/
theorem hesapla_stok_malformed_as_zero_witness :
    mvBadQty.miktar = none ∧
      hesapla_stok [mvBadQty] = hesapla_stok [{ mvBadQty with miktar := some 0 }] :=
  ⟨rfl, hesapla_stok_malformed_as_zero [] [] mvBadQty rfl⟩

/-- Witness for C9: quantity `-1` is rejected as `InvalidQuantity`,
the boundary quantity `0` is not. -/
theorem record_quantity_gate_witness :
    reqP1InNeg.miktar < 0 ∧ 0 ≤ reqP1In0.miktar ∧
      (record [] reqP1InNeg "t" = .error .InvalidQuantity ∧
        record [] reqP1In0 "t" ≠ .error .InvalidQuantity) :=
  ⟨by with_unfolding_all decide, by with_unfolding_all decide,
    record_quantity_gate [] reqP1InNeg reqP1In0 "t" (by with_unfolding_all decide)
      (by with_unfolding_all decide)⟩

theorem dateInRange_point (d : Int) (m : Movement) :
    dateInRange d d m = decide (m.tarih = some d) := by
  cases ht : m.tarih with
  | none => simp [dateInRange, ht]
  | some x =>
    rw [Bool.eq_iff_iff]
    simp [dateInRange, ht]
    omega

def mvX : Movement := ⟨some 0, "t", "Giriş", "X", "N", some 1, "Adet", ""⟩

/-- Counterexample to C6 as stated: with the empty string supplied as
`product_code`, the source's mask (Python truthiness `if selected_code:`)
applies no product restriction at all, while the claimed contract would
restrict to movements whose code is that empty string. -/
theorem rapor_filter_empty_code_counterexample :
    raporFilter [mvX] 0 0 (some "") = [mvX] ∧ filterSpec [mvX] 0 0 (some "") = [] := by
  constructor
  · with_unfolding_all rfl
  · with_unfolding_all rfl

/-- C6 (amended): the report filter returns exactly the movements whose
`effective_date` lies within the inclusive date window — compared on
`effective_date`, never `recorded_at` — restricted to `product_code` when
a non-empty one is given; an empty-string `product_code` behaves as
omitted, and with `start = end = d` and no product restriction it returns
exactly the movements whose `effective_date` is `d`. -/
theorem rapor_filter_range (L : List Movement) (s e d : Int) (c : String) (hc : c ≠ "") :
    raporFilter L s e none = filterSpec L s e none ∧
    raporFilter L s e (some c) = filterSpec L s e (some c) ∧
    raporFilter L s e (some "") = filterSpec L s e none ∧
    raporFilter L d d none = L.filter fun m => decide (m.tarih = some d) := by
  refine ⟨rfl, ?_, ?_, ?_⟩
  · apply List.filter_congr
    intro m _
    simp [raporMask, hc]
  · apply List.filter_congr
    intro m _
    simp [raporMask]
  · apply List.filter_congr
    intro m _
    simp [raporMask, dateInRange_point]

/-- Witness for C6: a three-movement ledger filtered to day `0` and
product `P1`. -/
theorem rapor_filter_range_witness :
    ("P1" : String) ≠ "" ∧
      (raporFilter [mvP1In10, mvP1Out4, mvX] 0 0 none
          = filterSpec [mvP1In10, mvP1Out4, mvX] 0 0 none ∧
        raporFilter [mvP1In10, mvP1Out4, mvX] 0 0 (some "P1")
          = filterSpec [mvP1In10, mvP1Out4, mvX] 0 0 (some "P1") ∧
        raporFilter [mvP1In10, mvP1Out4, mvX] 0 0 (some "")
          = filterSpec [mvP1In10, mvP1Out4, mvX] 0 0 none ∧
        raporFilter [mvP1In10, mvP1Out4, mvX] 0 0 none
          = [mvP1In10, mvP1Out4, mvX].filter fun m => decide (m.tarih = some 0)) :=
  ⟨by decide, rapor_filter_range [mvP1In10, mvP1Out4, mvX] 0 0 0 "P1" (by decide)⟩

/-- C10: any kind string whose lowering does not start with `"giriş"` gets
sign `-1` in the aggregation; such a movement (when its kind is also not
exactly `"Çıkış"`) decreases its group's net stock by its quantity while
contributing to neither `Toplam Giriş` nor `Toplam Çıkış`, which match the
kind string exactly. -/
theorem unrecognized_kind_counts_out (s : String) (l₁ l₂ : List Movement) (m : Movement)
    (hs : "giriş".data.isPrefixOf (lowerTR s).data = false)
    (hm : "giriş".data.isPrefixOf (lowerTR m.islem_turu).data = false)
    (hck : m.islem_turu ≠ "Çıkış") :
    signOf s = -1 ∧
    girisTop (l₁ ++ m :: l₂) = girisTop (l₁ ++ l₂) ∧
    cikisTop (l₁ ++ m :: l₂) = cikisTop (l₁ ++ l₂) ∧
    groupSum (l₁ ++ m :: l₂) (keyOf m) = groupSum (l₁ ++ l₂) (keyOf m) - qtyOf m := by
  have hGiris : m.islem_turu ≠ "Giriş" := by
    intro he
    have hpre : "giriş".data.isPrefixOf (lowerTR "Giriş").data = true := by decide
    rw [he] at hm
    simp [hpre] at hm
  have hsm : signOf m.islem_turu = -1 := by simp [signOf, hm]
  refine ⟨by simp [signOf, hs], ?_, ?_, ?_⟩
  · unfold girisTop
    rw [sum_filter_mid (fun x => decide (x.islem_turu = "Giriş")) qtyOf l₁ l₂ m]
    simp [hGiris]
  · unfold cikisTop
    rw [sum_filter_mid (fun x => decide (x.islem_turu = "Çıkış")) qtyOf l₁ l₂ m]
    simp [hck]
  · unfold groupSum
    rw [sum_filter_mid (fun x => decide (keyOf x = keyOf m)) signedQty l₁ l₂ m]
    simp [signedQty, hsm]
    ring

def mvKindBozuk : Movement := ⟨some 0, "t", "bozuk", "P7", "Z", some 3, "Adet", ""⟩

/-- Witness for C10: a movement with kind `"bozuk"` and quantity `3`
decreases its group's net by `3` and leaves both totals at `0`. -/
theorem unrecognized_kind_counts_out_witness :
    "giriş".data.isPrefixOf (lowerTR "bozuk").data = false ∧
      "giriş".data.isPrefixOf (lowerTR mvKindBozuk.islem_turu).data = false ∧
      mvKindBozuk.islem_turu ≠ "Çıkış" ∧
      (signOf "bozuk" = -1 ∧
        girisTop [mvKindBozuk] = girisTop [] ∧
        cikisTop [mvKindBozuk] = cikisTop [] ∧
        groupSum [mvKindBozuk] (keyOf mvKindBozuk)
          = groupSum [] (keyOf mvKindBozuk) - qtyOf mvKindBozuk) :=
  ⟨by decide, by decide, by decide,
    unrecognized_kind_counts_out "bozuk" [] [] mvKindBozuk
      (by decide) (by decide) (by decide)⟩

theorem filter_eq_singleton_of_unique (p : α → Bool) (l : List α) (hnd : l.Nodup) (a : α)
    (ha : a ∈ l) (hpa : p a = true) (huniq : ∀ x ∈ l, p x = true → x = a) :
    l.filter p = [a] := by
  induction l with
  | nil => cases ha
  | cons x xs ih =>
    rcases List.mem_cons.mp ha with rfl | hmem
    · rw [List.filter_cons_of_pos hpa]
      have hnil : xs.filter p = [] := by
        rw [List.filter_eq_nil_iff]
        intro y hy hpy
        have := huniq y (List.mem_cons_of_mem _ hy) hpy
        subst this
        exact (List.nodup_cons.mp hnd).1 hy
      rw [hnil]
    · have hx : p x = false := by
        cases hpx : p x with
        | false => rfl
        | true =>
          have := huniq x (List.mem_cons_self x xs) hpx
          subst this
          exact absurd hmem (List.nodup_cons.mp hnd).1
      rw [List.filter_cons_of_neg (by simp [hx])]
      exact ih (List.nodup_cons.mp hnd).2 hmem
        (fun y hy hpy => huniq y (List.mem_cons_of_mem _ hy) hpy)

theorem groupSum_eq_zero_of_not_mem {moves : List Movement} {k : Key}
    (h : k ∉ moves.map keyOf) : groupSum moves k = 0 := by
  unfold groupSum
  have hnil : moves.filter (fun m => decide (keyOf m = k)) = [] := by
    rw [List.filter_eq_nil_iff]
    intro m hm he
    exact h (List.mem_map.mpr ⟨m, hm, of_decide_eq_true he⟩)
  rw [hnil]
  rfl

theorem netOf_uniform (L : List Movement) (c n u : String)
    (huni : ∀ m ∈ L, m.urun_kodu = c → keyOf m = (c, n, u)) :
    netOf L c = groupSum L (c, n, u) := by
  unfold netOf mevcutLookup
  rw [hesapla_stok_eq, List.filter_map]
  by_cases hmem : (c, n, u) ∈ L.map keyOf
  · have hfil : (stokKeys L).filter ((fun r => decide (r.urun_kodu = c)) ∘ mkRow L)
        = [(c, n, u)] := by
      apply filter_eq_singleton_of_unique _ _ (stokKeys_nodup L)
      · exact mem_stokKeys.mpr hmem
      · exact decide_eq_true rfl
      · intro x hx hpx
        obtain ⟨m, hm, hkm⟩ := List.mem_map.mp (mem_stokKeys.mp hx)
        have hxc : x.1 = c := of_decide_eq_true hpx
        have hmc : m.urun_kodu = c := by
          have : (keyOf m).1 = x.1 := congrArg Prod.fst hkm
          rw [hxc] at this
          exact this
        rw [← hkm]
        exact huni m hm hmc
    rw [hfil]
    rfl
  · have hfil : (stokKeys L).filter ((fun r => decide (r.urun_kodu = c)) ∘ mkRow L)
        = [] := by
      rw [List.filter_eq_nil_iff]
      intro k hk hpk
      obtain ⟨m, hm, hkm⟩ := List.mem_map.mp (mem_stokKeys.mp hk)
      have hkc : k.1 = c := of_decide_eq_true hpk
      have hmc : m.urun_kodu = c := by
        have : (keyOf m).1 = k.1 := congrArg Prod.fst hkm
        rw [hkc] at this
        exact this
      have : k = (c, n, u) := by rw [← hkm]; exact huni m hm hmc
      subst this
      exact hmem (List.mem_map.mpr ⟨m, hm, hkm⟩)
    rw [hfil, groupSum_eq_zero_of_not_mem hmem]
    rfl

/-- C2 (amended): a withdrawal whose quantity equals the product's current
net stock (as the handler computes it) always succeeds and is appended;
and when every movement of that product in the ledger carries the
request's `product_name` and `unit` — the key under which the aggregator
groups — the product's net stock over the new ledger is exactly `0`. -/
theorem record_exact_stock (L : List Movement) (req : MoveRequest) (nowStr : String)
    (hk : req.islem = "Çıkış") (h0 : 0 ≤ req.miktar)
    (heq : req.miktar = netOf L req.urun_kodu) :
    record L req nowStr = .ok (L ++ [mkMovement req nowStr]) ∧
    ((∀ m ∈ L, m.urun_kodu = req.urun_kodu →
        m.urun_adi = req.urun_adi ∧ m.birim = req.birim) →
      netOf (L ++ [mkMovement req nowStr]) req.urun_kodu = 0) := by
  constructor
  · unfold record
    rw [if_neg (not_lt.mpr h0), if_neg]
    rintro ⟨-, hgt⟩
    rw [heq] at hgt
    exact lt_irrefl _ hgt
  · intro huni
    have huniL : ∀ m ∈ L, m.urun_kodu = req.urun_kodu →
        keyOf m = (req.urun_kodu, req.urun_adi, req.birim) := by
      intro m hm hc
      obtain ⟨hn, hu⟩ := huni m hm hc
      unfold keyOf
      rw [hc, hn, hu]
    have huni' : ∀ m ∈ L ++ [mkMovement req nowStr], m.urun_kodu = req.urun_kodu →
        keyOf m = (req.urun_kodu, req.urun_adi, req.birim) := by
      intro m hm hc
      rcases List.mem_append.mp hm with h | h
      · exact huniL m h hc
      · rw [List.mem_singleton.mp h]
        rfl
    rw [netOf_uniform _ _ _ _ huni']
    unfold groupSum
    rw [sum_filter_mid (fun x =>
      decide (keyOf x = (req.urun_kodu, req.urun_adi, req.birim))) signedQty L []
      (mkMovement req nowStr)]
    have hnet := netOf_uniform L req.urun_kodu req.urun_adi req.birim huniL
    unfold groupSum at hnet
    rw [List.append_nil]
    have hif : (if decide (keyOf (mkMovement req nowStr)
          = (req.urun_kodu, req.urun_adi, req.birim)) = true then
        signedQty (mkMovement req nowStr) else 0) = signedQty (mkMovement req nowStr) :=
      if_pos (decide_eq_true rfl)
    rw [hif, ← hnet, ← heq]
    have hsign : signOf (mkMovement req nowStr).islem_turu = -1 := by
      show signOf req.islem = -1
      rw [hk]
      decide
    show req.miktar + signedQty (mkMovement req nowStr) = 0
    unfold signedQty
    rw [hsign]
    show req.miktar + (-1 : Int) * req.miktar = 0
    push_cast
    ring

def mvInAdet : Movement := ⟨some 0, "t0", "Giriş", "P1", "N", some 5, "Adet", ""⟩

def mvInKutu : Movement := ⟨some 0, "t1", "Giriş", "P1", "N", some 7, "Kutu", ""⟩

def reqOutAdet7 : MoveRequest := ⟨"Çıkış", "P1", "N", 7, "Adet", "", 1⟩

/-- Counterexample to C2 as stated: on the ledger
`[{P1, In, 5, Adet}, {P1, In, 7, Kutu}]` the handler's net stock for `P1`
is `7` (the last group wins in `dict(zip(...))`); withdrawing `7 Adet`
equals that net stock and succeeds, yet the new net stock of `P1` is `7`,
not `0`. -/
theorem record_exact_stock_counterexample :
    reqOutAdet7.islem = "Çıkış" ∧
    reqOutAdet7.miktar = netOf [mvInAdet, mvInKutu] reqOutAdet7.urun_kodu ∧
    record [mvInAdet, mvInKutu] reqOutAdet7 "t2"
      = .ok ([mvInAdet, mvInKutu] ++ [mkMovement reqOutAdet7 "t2"]) ∧
    netOf ([mvInAdet, mvInKutu] ++ [mkMovement reqOutAdet7 "t2"])
      reqOutAdet7.urun_kodu ≠ 0 := by
  refine ⟨rfl, ?_, ?_, ?_⟩
  · with_unfolding_all rfl
  · with_unfolding_all rfl
  · with_unfolding_all decide

def reqP1Out6 : MoveRequest := ⟨"Çıkış", "P1", "N", 6, "Adet", "", 2⟩

def reqP1Out1 : MoveRequest := ⟨"Çıkış", "P1", "N", 1, "Adet", "", 3⟩

/-- Witness for C2: the scenario ledger `[{P1, In, 10}, {P1, Out, 4}]` has
net `6`; withdrawing `6` succeeds and drives the net to `0`, and a
subsequent withdrawal of `1` is rejected with available `0`. -/
theorem record_exact_stock_witness :
    reqP1Out6.islem = "Çıkış" ∧ 0 ≤ reqP1Out6.miktar ∧
      reqP1Out6.miktar = netOf movesScn reqP1Out6.urun_kodu ∧
      (record movesScn reqP1Out6 "t2" = .ok (movesScn ++ [mkMovement reqP1Out6 "t2"]) ∧
        ((∀ m ∈ movesScn, m.urun_kodu = reqP1Out6.urun_kodu →
            m.urun_adi = reqP1Out6.urun_adi ∧ m.birim = reqP1Out6.birim) →
          netOf (movesScn ++ [mkMovement reqP1Out6 "t2"]) reqP1Out6.urun_kodu = 0)) ∧
      record (movesScn ++ [mkMovement reqP1Out6 "t2"]) reqP1Out1 "t3"
        = .error (.InsufficientStock 0) :=
  ⟨rfl, by with_unfolding_all decide, by with_unfolding_all decide,
    record_exact_stock movesScn reqP1Out6 "t2" rfl (by with_unfolding_all decide)
      (by with_unfolding_all decide),
    by with_unfolding_all rfl⟩

end Depo
